/-
Verification of the geetools convenience layer against its specification.

The repository is a thin wrapper that composes remote Earth Engine
operations.  We give a shallow embedding of the wrapper methods over
concrete data: remote lists become Lean lists, per-pixel image algebra is
modelled at a fixed pixel, numbers are ℚ (or ℝ where the source takes a
square root), and fallible operations return `Except`/`Option`.
Engine primitives (documented behaviour of the external computation
engine) are modelled from their API documentation; everything else is
translated line by line from the Python source.
-/
import Mathlib

namespace EEArray

/-- Modelled from the Earth Engine API: `ee.Number.toInt` casts to an
integer, discarding the fractional part (truncation toward zero). -/
def eeToInt (q : ℚ) : ℤ := if 0 ≤ q then ⌊q⌋ else ⌈q⌉

/-- Embedding of `Array.full` (src/geetools/Array/__init__.py:23-50):
`ee.Array(ee.List.repeat(ee.List.repeat(value, width), height))` after
casting `width` and `height` with `toInt`. -/
def full (width height value : ℚ) : List (List ℚ) :=
  List.replicate (eeToInt height).toNat (List.replicate (eeToInt width).toNat value)

/-- Embedding of `Array.set` (src/geetools/Array/__init__.py:53-81):
`row = obj.toList().get(yPos).set(xPos, value)` then
`obj.toList().set(yPos, row)`.  The array is its nested-list form. -/
def set (arr : List (List ℚ)) (x y : ℕ) (value : ℚ) : List (List ℚ) :=
  let row := (arr.getD y []).set x value
  arr.set y row

/-- Cell accessor used to state the theorems: row `r` (outer), column `c`
(inner). -/
def cell (arr : List (List ℚ)) (r c : ℕ) : ℚ := (arr.getD r []).getD c 0

end EEArray

namespace UserFS

/-- Filesystem errors distinguished by the credential manager: `delete` and
`rename` suppress only `FileNotFoundError`; every other error (modelled by
the representative `permissionDenied`) propagates. -/
inductive FsError where
  | fileNotFound
  | permissionDenied
  deriving DecidableEq, Repr

/-- A filesystem: an association of paths to file contents. -/
abbrev FS := List (String × String)

/-- Remove a path from the filesystem. -/
def remove (fs : FS) (p : String) : FS := fs.filter (fun e => e.1 ≠ p)

/-- Write (or overwrite) a file. -/
def write (fs : FS) (p c : String) : FS := (p, c) :: remove fs p

/-- `Path.unlink`: raises `FileNotFoundError` when the file is absent;
paths in `locked` model files whose removal fails with a different
filesystem error. -/
def unlink (locked : List String) (fs : FS) (p : String) : Except FsError FS :=
  match List.lookup p fs with
  | none => .error .fileNotFound
  | some _ => if p ∈ locked then .error .permissionDenied else .ok (remove fs p)

/-- `Path.rename` / `shutil.move`: raises `FileNotFoundError` when the
source is absent, overwrites the destination otherwise; sources in
`locked` fail with a different filesystem error. -/
def moveFile (locked : List String) (fs : FS) (src dst : String) :
    Except FsError FS :=
  match List.lookup src fs with
  | none => .error .fileNotFound
  | some c =>
      if src ∈ locked then .error .permissionDenied
      else .ok (write (remove fs src) dst c)

/-- Embedding of `User.delete` (src/geetools/User/__init__.py:101-127):
`with suppress(FileNotFoundError): (credential_path / name).unlink()`.
Only `FileNotFoundError` is suppressed; other errors propagate. -/
def deleteUser (locked : List String) (fs : FS) (name : String) :
    Except FsError FS :=
  match unlink locked fs ("credentials" ++ name) with
  | .error .fileNotFound => .ok fs
  | r => r

/-- Embedding of `User.rename` (src/geetools/User/__init__.py:154-178):
`with suppress(FileNotFoundError): (path / old).rename(path / new)`. -/
def renameUser (locked : List String) (fs : FS) (old new : String) :
    Except FsError FS :=
  match moveFile locked fs ("credentials" ++ old) ("credentials" ++ new) with
  | .error .fileNotFound => .ok fs
  | r => r

/-- Embedding of `User.create` (src/geetools/User/__init__.py:63-99).
The Python wraps the two relocation moves in `suppress(move(...))`: the
call to `contextlib.suppress` receives the *result* of `move`, so `move`
runs eagerly and its exceptions are not suppressed.  The model therefore
lets every `move` error propagate.  `ee.Authenticate()` is modelled as
writing `newCred` to the default path. -/
def create (fs : FS) (name : String) (newCred : String) : Except FsError FS := do
  let fs ← moveFile [] fs "credentials" "tmp/credentials"
  let fs := write fs "credentials" newCred
  let fs ← moveFile [] fs "credentials" ("credentials" ++ name)
  let fs ← moveFile [] fs "tmp/credentials" "credentials"
  return fs

end UserFS

namespace GroupInterval

/-- An image for temporal grouping: its `system:time_start` key
(milliseconds) paired with an identifier distinguishing the image. -/
abbrev TImg := ℤ × ℕ

/-- Ordering images by their time key. -/
def timeLE (a b : TImg) : Prop := a.1 ≤ b.1

instance : DecidableRel timeLE := fun a b => Int.decLe a.1 b.1

instance : IsTotal TImg timeLE := ⟨fun a b => Int.le_total a.1 b.1⟩

instance : IsTrans TImg timeLE := ⟨fun _ _ _ h1 h2 => Int.le_trans h1 h2⟩

/-- Modelled from the spec: the fixed millisecond multiplier of each time
unit accepted by `groupInterval` ('year', 'month', 'week', 'day', 'hour',
'minute', 'second'); the `ee.DateRange.geetools.split` helper doing this
mapping is not among the sources under verification.  Constants follow
the repository's millisecond table (365-day year, 30-day month) plus a
7-day week. -/
def unitMillis (unit : String) : Option ℤ :=
  if unit = "year" then some (1000 * 60 * 60 * 24 * 365)
  else if unit = "month" then some (1000 * 60 * 60 * 24 * 30)
  else if unit = "week" then some (1000 * 60 * 60 * 24 * 7)
  else if unit = "day" then some (1000 * 60 * 60 * 24)
  else if unit = "hour" then some (1000 * 60 * 60)
  else if unit = "minute" then some (1000 * 60)
  else if unit = "second" then some 1000
  else none

/-- `ic.sort("system:time_start")`: stable sort on the time key. -/
def sortIC (ic : List TImg) : List TImg := List.insertionSort timeLE ic

/-- The number of duration-sized buckets covering the closed span
`[start, last]`: the ceiling of span/D, and at least one. -/
def numRanges (start last D : ℤ) : ℕ := max 1 ((last - start + D - 1) / D).toNat

/-- Modelled from the spec: `ee.DateRange(start, end).geetools.split
(duration, unit)` (not under src/) splits the full span into
duration-sized ranges; interior boundaries are lower-inclusive /
upper-exclusive and the ranges jointly cover the closed span, so the
final range is closed at the span end (times are integral milliseconds,
hence `last + 1` as its exclusive upper bound). -/
def splitRanges (start last D : ℤ) : List (ℤ × ℤ) :=
  (List.range (numRanges start last D)).map fun (i : ℕ) =>
    (start + (i : ℤ) * D,
      if i = numRanges start last D - 1 then last + 1
      else start + ((i : ℤ) + 1) * D)

/-- Embedding of `groupInterval`
(src/geetools/ee_image_collection.py:853-899): sort by the time key, read
the first and last time, split the span into date ranges, and filter the
sorted collection to each range (`filterDate` is start-inclusive,
end-exclusive). -/
def groupInterval (ic : List TImg) (unit : String) (duration : ℤ) :
    Option (List (List TImg)) := do
  let sorted := sortIC ic
  let u ← unitMillis unit
  let start ← (sorted.map Prod.fst).head?
  let last ← (sorted.map Prod.fst).getLast?
  let ranges := splitRanges start last (duration * u)
  return ranges.map fun r =>
    sorted.filter fun img => decide (r.1 ≤ img.1 ∧ img.1 < r.2)

/-- In a time-sorted list the head's time bounds every element's time
from below. -/
theorem head_time_le {l : List TImg} (hs : List.Sorted timeLE l) {t0 : ℤ}
    (h0 : (l.map Prod.fst).head? = some t0) : ∀ x ∈ l, t0 ≤ x.1 := by
  cases l with
  | nil => cases h0
  | cons a tl =>
      simp only [List.map_cons, List.head?_cons, Option.some.injEq] at h0
      subst h0
      intro x hx
      rcases List.mem_cons.mp hx with rfl | hx
      · exact le_refl _
      · exact List.rel_of_sorted_cons hs x hx

/-- In a time-sorted list the last element's time bounds every element's
time from above. -/
theorem time_le_last {l : List TImg} (hs : List.Sorted timeLE l) {tN : ℤ}
    (hN : (l.map Prod.fst).getLast? = some tN) : ∀ x ∈ l, x.1 ≤ tN := by
  induction l with
  | nil => cases hN
  | cons a tl ih =>
      cases tl with
      | nil =>
          simp only [List.map_cons, List.map_nil, List.getLast?_singleton,
            Option.some.injEq] at hN
          subst hN
          intro x hx
          rcases List.mem_cons.mp hx with rfl | hx
          · exact le_refl _
          · cases hx
      | cons b tl' =>
          have hN' : ((b :: tl').map Prod.fst).getLast? = some tN := by
            simpa only [List.map_cons, List.getLast?_cons_cons] using hN
          intro x hx
          rcases List.mem_cons.mp hx with rfl | hx
          · obtain ⟨y, hy, hyt⟩ : ∃ y ∈ b :: tl', y.1 = tN := by
              have := List.mem_of_getLast?_eq_some hN'
              rcases List.mem_map.mp this with ⟨y, hy, hyt⟩
              exact ⟨y, hy, hyt⟩
            exact hyt ▸ List.rel_of_sorted_cons hs y hy
          · exact ih hs.of_cons hN' x hx

end GroupInterval

/-- Ceiling division helper: a span of exactly `k` durations yields `k`
buckets, for positive `D`. -/
theorem span_ediv_eq (D k : ℤ) (hD : 0 < D) : (k * D + D - 1) / D = k := by
  have h1 : k * D + D - 1 = (D - 1) + k * D := by ring
  rw [h1, Int.add_mul_ediv_right _ _ (ne_of_gt hD),
    Int.ediv_eq_zero_of_lt (by omega) (by omega)]
  omega

/-- C5: for a non-empty collection, `groupInterval(unit, duration)`
returns one bucket per duration-sized slice of the time span (buckets
with zero images are kept as empty collections); a collection spanning
exactly one duration yields a single bucket holding every image (the
sorted collection, a permutation of the input), and a collection spanning
exactly two durations yields two buckets whose membership is
lower-edge-inclusive and upper-edge-exclusive at the interior boundary. -/
theorem groupInterval_spec (ic : List GroupInterval.TImg) (unit : String)
    (duration u t0 tN : ℤ)
    (hu : GroupInterval.unitMillis unit = some u) (hu0 : 0 < u)
    (hdur : 0 < duration)
    (h0 : ((GroupInterval.sortIC ic).map Prod.fst).head? = some t0)
    (hN : ((GroupInterval.sortIC ic).map Prod.fst).getLast? = some tN) :
    (GroupInterval.sortIC ic).Perm ic ∧
    (∀ buckets, GroupInterval.groupInterval ic unit duration = some buckets →
      buckets.length = GroupInterval.numRanges t0 tN (duration * u)) ∧
    (tN - t0 = duration * u →
      GroupInterval.groupInterval ic unit duration =
        some [GroupInterval.sortIC ic]) ∧
    (tN - t0 = 2 * (duration * u) →
      ∃ b0 b1, GroupInterval.groupInterval ic unit duration = some [b0, b1] ∧
        ∀ img : GroupInterval.TImg,
          (img ∈ b0 ↔ img ∈ ic ∧ t0 ≤ img.1 ∧ img.1 < t0 + duration * u) ∧
          (img ∈ b1 ↔ img ∈ ic ∧ t0 + duration * u ≤ img.1 ∧ img.1 ≤ tN)) := by
  have hD : 0 < duration * u := mul_pos hdur hu0
  have hsorted : List.Sorted GroupInterval.timeLE (GroupInterval.sortIC ic) :=
    List.sorted_insertionSort _ ic
  have hrun : GroupInterval.groupInterval ic unit duration =
      some ((GroupInterval.splitRanges t0 tN (duration * u)).map fun r =>
        (GroupInterval.sortIC ic).filter fun img =>
          decide (r.1 ≤ img.1 ∧ img.1 < r.2)) := by
    simp only [GroupInterval.groupInterval, hu, h0, hN, Option.bind_eq_bind,
      Option.some_bind, Option.pure_def]
  refine ⟨List.perm_insertionSort _ _, ?_, ?_, ?_⟩
  · intro buckets hbk
    rw [hrun, Option.some.injEq] at hbk
    subst hbk
    simp only [List.length_map, GroupInterval.splitRanges, List.length_range]
  · intro hspan
    have hn : GroupInterval.numRanges t0 tN (duration * u) = 1 := by
      unfold GroupInterval.numRanges
      rw [show tN - t0 + duration * u - 1 =
          1 * (duration * u) + duration * u - 1 by omega,
        span_ediv_eq _ _ hD]
      rfl
    have hsplit : GroupInterval.splitRanges t0 tN (duration * u) =
        [(t0, tN + 1)] := by
      unfold GroupInterval.splitRanges
      rw [hn, show List.range 1 = [0] from rfl]
      simp only [List.map_cons, List.map_nil]
      norm_num
    rw [hrun, hsplit]
    have hall : ∀ img ∈ GroupInterval.sortIC ic,
        decide (t0 ≤ img.1 ∧ img.1 < tN + 1) = true := by
      intro img hmem
      have h1 := GroupInterval.head_time_le hsorted h0 img hmem
      have h2 := GroupInterval.time_le_last hsorted hN img hmem
      simp only [decide_eq_true_eq]
      exact ⟨h1, by omega⟩
    simp only [List.map_cons, List.map_nil, Option.some.injEq]
    rw [List.filter_eq_self.mpr hall]
  · intro hspan
    have hn : GroupInterval.numRanges t0 tN (duration * u) = 2 := by
      unfold GroupInterval.numRanges
      rw [show tN - t0 + duration * u - 1 =
          2 * (duration * u) + duration * u - 1 by omega,
        span_ediv_eq _ _ hD]
      rfl
    have hsplit : GroupInterval.splitRanges t0 tN (duration * u) =
        [(t0, t0 + duration * u), (t0 + duration * u, tN + 1)] := by
      unfold GroupInterval.splitRanges
      rw [hn, show List.range 2 = [0, 1] from rfl]
      simp only [List.map_cons, List.map_nil]
      norm_num
    refine ⟨(GroupInterval.sortIC ic).filter fun img =>
        decide (t0 ≤ img.1 ∧ img.1 < t0 + duration * u),
      (GroupInterval.sortIC ic).filter fun img =>
        decide (t0 + duration * u ≤ img.1 ∧ img.1 < tN + 1),
      by rw [hrun, hsplit]; rfl, ?_⟩
    intro img
    constructor
    · simp only [List.mem_filter, GroupInterval.sortIC, List.mem_insertionSort,
        decide_eq_true_eq]
    · simp only [List.mem_filter, GroupInterval.sortIC, List.mem_insertionSort,
        decide_eq_true_eq]
      constructor
      · rintro ⟨h1, h2, h3⟩
        exact ⟨h1, h2, by omega⟩
      · rintro ⟨h1, h2, h3⟩
        exact ⟨h1, h2, by omega⟩

/-- Witness for C5: two images one day apart grouped by 1-day intervals
land in a single bucket holding both images (in time order). -/
theorem groupInterval_spec_witness :
    GroupInterval.unitMillis "day" = some 86400000 ∧ (0 : ℤ) < 86400000 ∧
    (0 : ℤ) < 1 ∧
    GroupInterval.groupInterval [((86400000 : ℤ), 1), ((0 : ℤ), 0)] "day" 1 =
      some [[((0 : ℤ), 0), ((86400000 : ℤ), 1)]] := by
  have h := groupInterval_spec [((86400000 : ℤ), 1), ((0 : ℤ), 0)] "day"
    1 86400000 0 86400000 (by decide) (by decide) (by decide) (by decide)
    (by decide)
  refine ⟨by decide, by decide, by decide, ?_⟩
  have h1 := h.2.2.1 (by decide)
  rw [h1]
  rfl

namespace Integral

/-- An image as seen by `integral`: the selected band's per-pixel value
and the date property (milliseconds) used for the time axis. -/
structure Img where
  val : ℚ
  time : ℤ
  deriving DecidableEq, Repr

/-- The state threaded by `iterate`: the running `integral` image and the
image stored in its `last` property (`select(band)` keeps metadata, so the
stored image carries its value and its time). -/
structure IState where
  acc : ℚ
  lastVal : ℚ
  lastTime : ℤ
  deriving DecidableEq, Repr

/-- The `intervals` dictionary of `integral`
(src/geetools/ee_image_collection.py:521-530): fixed millisecond
constants per unit, the full time range for the empty string, and a
`KeyError` (here `none`) for any other unit. -/
def intervalOf (unit : String) (minT maxT : ℤ) : Option ℚ :=
  if unit = "year" then some (1000 * 60 * 60 * 24 * 365)
  else if unit = "month" then some (1000 * 60 * 60 * 24 * 30)
  else if unit = "day" then some (1000 * 60 * 60 * 24)
  else if unit = "hour" then some (1000 * 60 * 60)
  else if unit = "minute" then some (1000 * 60)
  else if unit = "second" then some 1000
  else if unit = "" then some ((maxT : ℚ) - (minT : ℚ))
  else none

/-- One step of `computeIntegral`
(src/geetools/ee_image_collection.py:541-549):
`locInterval = (t - t_last) / interval`,
`locIntegral = (last + image) * locInterval / 2`, accumulate and update
the `last` property. -/
def computeIntegral (interval : ℚ) (st : IState) (img : Img) : IState :=
  let locInterval : ℚ := ((img.time : ℚ) - (st.lastTime : ℚ)) / interval
  let locIntegral : ℚ := (st.lastVal + img.val) * locInterval / 2
  { acc := st.acc + locIntegral, lastVal := img.val, lastTime := img.time }

/-- `aggregate_min` over the time property. -/
def minTime (ic : List Img) : Option ℤ := (ic.map Img.time).min?

/-- `aggregate_max` over the time property. -/
def maxTime (ic : List Img) : Option ℤ := (ic.map Img.time).max?

/-- Embedding of `integral` (src/geetools/ee_image_collection.py:491-551):
the sum is initialised with a zero image carrying the first image's
properties (hence its time), then `iterate` folds `computeIntegral` over
the collection. -/
def integral (ic : List Img) (unit : String) : Option ℚ := do
  let first ← ic.head?
  let mn ← minTime ic
  let mx ← maxTime ic
  let interval ← intervalOf unit mn mx
  let s : IState := { acc := 0, lastVal := 0, lastTime := first.time }
  return (ic.foldl (computeIntegral interval) s).acc

/-- The trapezoidal accumulation in the shape the specification states
it: each consecutive pair contributes `(prev+curr)/2 * Δt/unitInterval`. -/
def trapSum (interval : ℚ) : List Img → ℚ
  | a :: b :: rest =>
      (a.val + b.val) / 2 * (((b.time : ℚ) - (a.time : ℚ)) / interval) +
        trapSum interval (b :: rest)
  | _ => 0

/-- Folding `computeIntegral` from a state whose `last` image has value
`lv` and time `lt` accumulates exactly the trapezoid sum of the list
prefixed with that image. -/
theorem foldl_computeIntegral_acc (I : ℚ) :
    ∀ (rest : List Img) (A lv : ℚ) (lt : ℤ),
      (List.foldl (computeIntegral I) ⟨A, lv, lt⟩ rest).acc =
        A + trapSum I (⟨lv, lt⟩ :: rest) := by
  intro rest
  induction rest with
  | nil => intro A lv lt; simp [trapSum]
  | cons b rest ih =>
      intro A lv lt
      simp only [List.foldl_cons, computeIntegral]
      rw [ih]
      simp only [trapSum]
      ring

end Integral

/-- C6: on a non-empty time-sorted collection, `integral(band, time,
unit)` returns the trapezoidal accumulation: the running sum starts from
a zero image stamped with the first image's metadata (so the first step
contributes nothing), and each later step adds
`(prev+curr)/2 * Δt/unitInterval` for consecutive images, where
`unitInterval` is the unit's fixed millisecond constant or the full time
span for the empty-string unit. -/
theorem integral_trapezoid (ic : List Integral.Img) (unit : String)
    (mn mx : ℤ) (I : ℚ) (hne : ic ≠ [])
    (_hsorted : ic.Sorted (fun a b => a.time ≤ b.time))
    (hmn : Integral.minTime ic = some mn) (hmx : Integral.maxTime ic = some mx)
    (hI : Integral.intervalOf unit mn mx = some I) :
    Integral.integral ic unit = some (Integral.trapSum I ic) := by
  obtain ⟨f, rest, rfl⟩ := List.exists_cons_of_ne_nil hne
  simp only [Integral.integral, List.head?_cons, hmn, hmx, hI, Option.bind_some,
    Option.bind_eq_bind, Option.some_bind, Option.pure_def, Option.some.injEq]
  rw [Integral.foldl_computeIntegral_acc]
  simp only [Integral.trapSum, sub_self, zero_div, mul_zero, zero_add]

/-- Witness for C6: three daily images with values 1, 3, 2 at days 0, 1
and 3 integrate (unit "day") to (1+3)/2*1 + (3+2)/2*2 = 7. -/
theorem integral_trapezoid_witness :
    ([⟨1, 0⟩, ⟨3, 86400000⟩, ⟨2, 259200000⟩] : List Integral.Img) ≠ [] ∧
    Integral.integral [⟨1, 0⟩, ⟨3, 86400000⟩, ⟨2, 259200000⟩] "day" = some 7 := by
  have h := integral_trapezoid [⟨1, 0⟩, ⟨3, 86400000⟩, ⟨2, 259200000⟩] "day"
    0 259200000 86400000 (by simp) (by decide) (by decide) (by decide)
    (by simp [Integral.intervalOf]; norm_num)
  refine ⟨by simp, ?_⟩
  rw [h]
  norm_num [Integral.trapSum]

/-- C4 evaluation: with a pre-existing default credential, `create`
relocates the fresh credential to the name-qualified path and restores the
default; but when no default credential file exists, the eagerly evaluated
`suppress(move(default, ...))` raises `FileNotFoundError` instead of
succeeding, contradicting the intended best-effort backup. -/
theorem user_create_eval :
    UserFS.create [] "A" "newtok" = .error .fileNotFound ∧
    UserFS.create [("credentials", "oldtok")] "A" "newtok" =
      .ok [("credentials", "oldtok"), ("credentialsA", "newtok")] := by
  exact ⟨rfl, rfl⟩

/-- C10: `User.delete` and `User.rename` succeed (and leave the
filesystem unchanged) when the targeted credential file does not exist,
while any other filesystem error raised by the unlink or rename
propagates to the caller unmodified. -/
theorem user_delete_rename_errors (locked : List String) (fs : UserFS.FS)
    (name old new : String) :
    (List.lookup ("credentials" ++ name) fs = none →
      UserFS.deleteUser locked fs name = .ok fs) ∧
    (∀ c, List.lookup ("credentials" ++ name) fs = some c →
      ("credentials" ++ name) ∈ locked →
      UserFS.deleteUser locked fs name = .error .permissionDenied) ∧
    (List.lookup ("credentials" ++ old) fs = none →
      UserFS.renameUser locked fs old new = .ok fs) ∧
    (∀ c, List.lookup ("credentials" ++ old) fs = some c →
      ("credentials" ++ old) ∈ locked →
      UserFS.renameUser locked fs old new = .error .permissionDenied) := by
  refine ⟨?_, ?_, ?_, ?_⟩
  · intro habs
    simp [UserFS.deleteUser, UserFS.unlink, habs]
  · intro c hc hl
    simp [UserFS.deleteUser, UserFS.unlink, hc, hl]
  · intro habs
    simp [UserFS.renameUser, UserFS.moveFile, habs]
  · intro c hc hl
    simp [UserFS.renameUser, UserFS.moveFile, hc, hl]

/-- Witness for C10: deleting or renaming an absent user succeeds; a
locked (permission-protected) credential file propagates its error. -/
theorem user_delete_rename_errors_witness :
    (List.lookup "credentialsA" [("credentialsB", "tok")] = none ∧
      UserFS.deleteUser ["credentialsB"] [("credentialsB", "tok")] "A" =
        .ok [("credentialsB", "tok")] ∧
      UserFS.renameUser ["credentialsB"] [("credentialsB", "tok")] "A" "C" =
        .ok [("credentialsB", "tok")]) ∧
    (List.lookup "credentialsB" [("credentialsB", "tok")] = some "tok" ∧
      UserFS.deleteUser ["credentialsB"] [("credentialsB", "tok")] "B" =
        .error .permissionDenied ∧
      UserFS.renameUser ["credentialsB"] [("credentialsB", "tok")] "B" "C" =
        .error .permissionDenied) := by
  have h1 := user_delete_rename_errors ["credentialsB"] [("credentialsB", "tok")] "A" "A" "C"
  have h2 := user_delete_rename_errors ["credentialsB"] [("credentialsB", "tok")] "B" "B" "C"
  refine ⟨⟨by rfl, h1.1 (by rfl), h1.2.2.1 (by rfl)⟩,
    ⟨by rfl, h2.2.1 "tok" (by rfl) (by simp), h2.2.2.2 "tok" (by rfl) (by simp)⟩⟩

/-- C9: `Array.full(w, h, v)` is a nested sequence of exactly `h` rows of
exactly `w` columns, every cell equal to `v`; non-integer `w`, `h` are
coerced by truncation (the coerced value never exceeds the input and is
within one unit below it, hence not rounded up). -/
theorem array_full_shape (w h v : ℚ) (hw : 0 ≤ w) (hh : 0 ≤ h) :
    (EEArray.full w h v).length = (EEArray.eeToInt h).toNat ∧
    (∀ row ∈ EEArray.full w h v,
      row.length = (EEArray.eeToInt w).toNat ∧ ∀ c ∈ row, c = v) ∧
    ((EEArray.eeToInt w : ℚ) ≤ w ∧ w - 1 < (EEArray.eeToInt w : ℚ)) ∧
    ((EEArray.eeToInt h : ℚ) ≤ h ∧ h - 1 < (EEArray.eeToInt h : ℚ)) := by
  refine ⟨List.length_replicate _ _, ?_, ?_, ?_⟩
  · intro row hrow
    rcases List.eq_of_mem_replicate hrow with rfl
    exact ⟨List.length_replicate _ _, fun c hc => List.eq_of_mem_replicate hc⟩
  · have e : EEArray.eeToInt w = ⌊w⌋ := by simp [EEArray.eeToInt, hw]
    rw [e]
    exact ⟨Int.floor_le w, sub_lt_iff_lt_add.mpr (Int.lt_floor_add_one w)⟩
  · have e : EEArray.eeToInt h = ⌊h⌋ := by simp [EEArray.eeToInt, hh]
    rw [e]
    exact ⟨Int.floor_le h, sub_lt_iff_lt_add.mpr (Int.lt_floor_add_one h)⟩

/-- Witness for C9 at a non-integer size: width 27/10 truncates to 2
columns (rounding would give 3), height 3/2 truncates to 1 row. -/
theorem array_full_shape_witness :
    (0 : ℚ) ≤ 27 / 10 ∧ (0 : ℚ) ≤ 3 / 2 ∧
    (EEArray.full (27 / 10) (3 / 2) (-5 / 2)).length = 1 ∧
    ∀ row ∈ EEArray.full (27 / 10) (3 / 2) (-5 / 2), row.length = 2 := by
  have h := array_full_shape (27 / 10) (3 / 2) (-5 / 2) (by norm_num) (by norm_num)
  refine ⟨by norm_num, by norm_num, ?_, ?_⟩
  · have e1 : EEArray.eeToInt (3 / 2) = 1 := by norm_num [EEArray.eeToInt]
    rw [h.1, e1]; rfl
  · intro row hrow
    have e2 : EEArray.eeToInt (27 / 10) = 2 := by norm_num [EEArray.eeToInt]
    rw [(h.2.1 row hrow).1, e2]; rfl

/-- C8: for in-range `x`, `y`, `Array.set(x, y, v)` sets exactly the cell
at row `y` (outer index), column `x` (inner index) to `v` and leaves
every other cell unchanged. -/
theorem array_set_cell (arr : List (List ℚ)) (x y : ℕ) (v : ℚ)
    (hy : y < arr.length) (hx : x < (arr.getD y []).length) :
    ∀ r c, r < arr.length → c < (arr.getD r []).length →
      EEArray.cell (EEArray.set arr x y v) r c =
        if r = y ∧ c = x then v else EEArray.cell arr r c := by
  intro r c hr hc
  unfold EEArray.cell EEArray.set
  simp only [List.getD, List.get?_eq_getElem?] at hc hx ⊢
  by_cases hry : r = y
  · subst hry
    rw [List.getElem?_set_self hr, Option.getD_some]
    by_cases hcx : c = x
    · subst hcx
      rw [List.getElem?_set_self hc, Option.getD_some]
      simp
    · rw [List.getElem?_set_ne (fun h => hcx h.symm)]
      simp [hcx]
  · rw [List.getElem?_set_ne (fun h => hry h.symm)]
    simp [hry]

/-- Witness for C8: `Array.full(3,3,1).set(1,1,0)` makes the center cell 0
and leaves the other cells equal to 1. -/
theorem array_set_cell_witness :
    (1 < (EEArray.full 3 3 1).length ∧
      1 < ((EEArray.full 3 3 1).getD 1 []).length) ∧
    EEArray.cell (EEArray.set (EEArray.full 3 3 1) 1 1 0) 1 1 = 0 ∧
    EEArray.cell (EEArray.set (EEArray.full 3 3 1) 1 1 0) 0 0 = 1 ∧
    EEArray.cell (EEArray.set (EEArray.full 3 3 1) 1 1 0) 0 1 = 1 ∧
    EEArray.cell (EEArray.set (EEArray.full 3 3 1) 1 1 0) 0 2 = 1 ∧
    EEArray.cell (EEArray.set (EEArray.full 3 3 1) 1 1 0) 1 0 = 1 ∧
    EEArray.cell (EEArray.set (EEArray.full 3 3 1) 1 1 0) 1 2 = 1 ∧
    EEArray.cell (EEArray.set (EEArray.full 3 3 1) 1 1 0) 2 0 = 1 ∧
    EEArray.cell (EEArray.set (EEArray.full 3 3 1) 1 1 0) 2 1 = 1 ∧
    EEArray.cell (EEArray.set (EEArray.full 3 3 1) 1 1 0) 2 2 = 1 := by
  have h := array_set_cell (EEArray.full 3 3 1) 1 1 0 (by decide) (by decide)
  refine ⟨⟨by decide, by decide⟩, ?_, ?_, ?_, ?_, ?_, ?_, ?_, ?_, ?_⟩
  · exact (h 1 1 (by decide) (by decide)).trans (by decide)
  · exact (h 0 0 (by decide) (by decide)).trans (by decide)
  · exact (h 0 1 (by decide) (by decide)).trans (by decide)
  · exact (h 0 2 (by decide) (by decide)).trans (by decide)
  · exact (h 1 0 (by decide) (by decide)).trans (by decide)
  · exact (h 1 2 (by decide) (by decide)).trans (by decide)
  · exact (h 2 0 (by decide) (by decide)).trans (by decide)
  · exact (h 2 1 (by decide) (by decide)).trans (by decide)
  · exact (h 2 2 (by decide) (by decide)).trans (by decide)

namespace ReduceRegion

/-- Band and identifier names as character lists (the formatted
`idProperty` values and band names embedded into stacked band names). -/
abbrev Name := List Char

/-- The stacked band name `<idProperty>_<bandName>`
(src/geetools/ee_image_collection.py:1834):
`ee.String(p).cat("_").cat(b)`. -/
def composeBand (p b : Name) : Name := p ++ '_' :: b

/-- The flat dictionary returned by the single `image.reduceRegion` call
(src/geetools/ee_image_collection.py:1838-1848): one entry per stacked
band, in stack order, keyed by the composed band name.  The per-key,
per-band reduced values are abstracted by `V`. -/
def reducedDict (props bands : List Name) (V : Name → Name → ℚ) :
    List (Name × ℚ) :=
  (props.map fun p => bands.map fun b => (composeBand p b, V p b)).flatten

/-- First-occurrence replacement, the behaviour of
`ee.String.replace(pattern, "")` on a regex-metacharacter-free pattern
(modelled from the Earth Engine API; keys made of letters, digits and
underscores match literally). -/
def replaceFirst (pat repl : Name) : Name → Name
  | [] => if pat.isPrefixOf [] then repl else []
  | c :: cs =>
      if pat.isPrefixOf (c :: cs) then repl ++ (c :: cs).drop pat.length
      else c :: replaceFirst pat repl cs

/-- The unstacking half `getProp`
(src/geetools/ee_image_collection.py:1851-1856): keep the reduced keys
starting with `p` (`ee.Filter.stringStartsWith`), pair them with their
values, and strip each kept key with `replace(p, "").slice(1)`.  Keys and
values are drawn from the same filtered entry list, which matches
`reduced.select(keys).values()` when the stacked band names are
distinct. -/
def getProp (reduced : List (Name × ℚ)) (p : Name) : List (Name × ℚ) :=
  let entries := reduced.filter fun e => p.isPrefixOf e.1
  let keys := entries.map fun e => (replaceFirst p [] e.1).drop 1
  keys.zip (entries.map Prod.snd)

/-- The nested result of `reduceRegion`
(src/geetools/ee_image_collection.py:1858-1860):
`{identifier: {band: value}}`. -/
def reduceRegionDict (props bands : List Name) (V : Name → Name → ℚ) :
    List (Name × List (Name × ℚ)) :=
  props.map fun p => (p, getProp (reducedDict props bands V) p)

/-- On a non-empty string starting with the pattern, `replaceFirst`
replaces exactly that leading occurrence. -/
theorem replaceFirst_prefix_eq (pat repl : Name) (s : Name) (hs : s ≠ [])
    (h : pat.isPrefixOf s = true) :
    replaceFirst pat repl s = repl ++ s.drop pat.length := by
  cases s with
  | nil => exact absurd rfl hs
  | cons c cs => rw [replaceFirst, if_pos h]

/-- Stripping a key's own composed band name recovers the band. -/
theorem replaceFirst_composeBand (p b : Name) :
    (replaceFirst p [] (composeBand p b)).drop 1 = b := by
  have hne : composeBand p b ≠ [] := by
    cases p <;> simp [composeBand]
  have hpre : p.isPrefixOf (composeBand p b) = true :=
    List.isPrefixOf_iff_prefix.mpr (List.prefix_append p _)
  rw [replaceFirst_prefix_eq p [] _ hne hpre, List.nil_append]
  unfold composeBand
  rw [List.drop_left]
  rfl

/-- Summing a list of blocks in which exactly one block survives. -/
theorem flatten_eq_single {X : Type} (props : List Name) (p : Name)
    (f : Name → List X) (hp : p ∈ props) (hnd : props.Nodup)
    (hz : ∀ k ∈ props, k ≠ p → f k = []) :
    (props.map f).flatten = f p := by
  induction props with
  | nil => cases hp
  | cons q props ih =>
      rcases List.mem_cons.mp hp with rfl | hp'
      · have hrest : ∀ k ∈ props, f k = [] := by
          intro k hk
          exact hz k (List.mem_cons_of_mem _ hk)
            (fun hkq => (List.nodup_cons.mp hnd).1 (hkq ▸ hk))
        have : (props.map f).flatten = [] := by
          rw [List.flatten_eq_nil_iff]
          intro l hl
          rcases List.mem_map.mp hl with ⟨k, hk, rfl⟩
          exact hrest k hk
        simp [this]
      · have hq : f q = [] :=
          hz q (List.mem_cons_self _ _)
            (fun hqp => (List.nodup_cons.mp hnd).1 (hqp ▸ hp'))
        simp only [List.map_cons, List.flatten_cons, hq, List.nil_append]
        exact ih hp' (List.nodup_cons.mp hnd).2
          (fun k hk => hz k (List.mem_cons_of_mem _ hk))

end ReduceRegion

/-- C2 (amended): the `<key>_<band>` round-trip of `reduceRegion` holds
for a key `p` provided `p` is not a string prefix of any *other* key's
composed band name: the nested output then maps `p` to exactly the
original band names with their values.  (As universally stated the claim
fails: see the counterexample with keys `a` and `a_1`.) -/
theorem reduceRegion_roundtrip_prefixFree (props bands : List ReduceRegion.Name)
    (V : ReduceRegion.Name → ReduceRegion.Name → ℚ) (p : ReduceRegion.Name)
    (hp : p ∈ props) (hnd : props.Nodup)
    (hnc : ∀ k ∈ props, k ≠ p → ∀ b ∈ bands,
      p.isPrefixOf (ReduceRegion.composeBand k b) = false) :
    ReduceRegion.getProp (ReduceRegion.reducedDict props bands V) p =
      bands.map (fun b => (b, V p b)) ∧
    (p, bands.map fun b => (b, V p b)) ∈
      ReduceRegion.reduceRegionDict props bands V := by
  have hblock : ∀ k ∈ props, k ≠ p →
      (bands.map fun b => (ReduceRegion.composeBand k b, V k b)).filter
        (fun e => p.isPrefixOf e.1) = [] := by
    intro k hk hkp
    rw [List.filter_eq_nil_iff]
    intro e he
    rcases List.mem_map.mp he with ⟨b, hb, rfl⟩
    simp [hnc k hk hkp b hb]
  have hown : (bands.map fun b => (ReduceRegion.composeBand p b, V p b)).filter
      (fun e => p.isPrefixOf e.1) =
      bands.map fun b => (ReduceRegion.composeBand p b, V p b) := by
    rw [List.filter_eq_self]
    intro e he
    rcases List.mem_map.mp he with ⟨b, hb, rfl⟩
    exact List.isPrefixOf_iff_prefix.mpr (List.prefix_append p _)
  have hentries : (ReduceRegion.reducedDict props bands V).filter
      (fun e => p.isPrefixOf e.1) =
      bands.map fun b => (ReduceRegion.composeBand p b, V p b) := by
    unfold ReduceRegion.reducedDict
    rw [List.filter_flatten, List.map_map]
    have h1 := ReduceRegion.flatten_eq_single props p
      (fun k => (bands.map fun b => (ReduceRegion.composeBand k b, V k b)).filter
        (fun e => p.isPrefixOf e.1)) hp hnd hblock
    exact h1.trans hown
  have hmain : ReduceRegion.getProp (ReduceRegion.reducedDict props bands V) p =
      bands.map (fun b => (b, V p b)) := by
    simp only [ReduceRegion.getProp]
    rw [hentries, List.zip_map', List.map_map]
    apply List.map_congr_left
    intro b _
    simp only [Function.comp_apply]
    rw [ReduceRegion.replaceFirst_composeBand]
  refine ⟨hmain, ?_⟩
  unfold ReduceRegion.reduceRegionDict
  exact List.mem_map.mpr ⟨p, hp, by rw [hmain]⟩

/-- C2 counterexample: with identifier keys `a` and `a_1` and band `b`
(keys containing an underscore and a digit), the unstacked inner
dictionary for key `a` is keyed by `b` *and* `1_b`, not by exactly the
original band name, because `stringStartsWith` also matches the other
key's composed band name `a_1_b`. -/
theorem reduceRegion_roundtrip_cex :
    (ReduceRegion.getProp
        (ReduceRegion.reducedDict [['a'], ['a', '_', '1']] [['b']]
          (fun p _ => ((p.length : ℚ))))
        ['a']).map Prod.fst = [['b'], ['1', '_', 'b']] ∧
    ([['b'], ['1', '_', 'b']] : List ReduceRegion.Name) ≠ [['b']] := by
  exact ⟨rfl, by decide⟩

/-- Witness for the amended C2 at a key and band containing underscores,
digits and mixed case. -/
theorem reduceRegion_roundtrip_witness :
    ReduceRegion.getProp
        (ReduceRegion.reducedDict [['a', 'B', '1'], ['c', 'c']]
          [['x', '_', 'Y', '2']]
          (fun p b => ((p.length + b.length : ℕ) : ℚ)))
        ['a', 'B', '1'] = [(['x', '_', 'Y', '2'], 7)] := by
  have h := reduceRegion_roundtrip_prefixFree [['a', 'B', '1'], ['c', 'c']]
    [['x', '_', 'Y', '2']] (fun p b => ((p.length + b.length : ℕ) : ℚ))
    ['a', 'B', '1'] (by decide) (by decide) (by decide)
  rw [h.1]
  norm_num

namespace DoyByBands

/-- An image as seen by `doyByBands`: its date property (milliseconds)
and its named bands (per-pixel values at a fixed pixel). -/
structure DImg where
  time : ℤ
  bands : List (String × ℚ)
  deriving DecidableEq, Repr

/-- `image.bandNames()`. -/
def bandNames (i : DImg) : List String := i.bands.map Prod.fst

/-- `image.select(names)`: restrict/reorder to the requested bands. -/
def selectBands (names : List String) (i : DImg) : DImg :=
  { i with bands := names.map fun n =>
      (n, (((i.bands.find? fun e => e.1 == n).map Prod.snd).getD 0)) }

/-- `image.rename(labels)`: positional relabelling; the engine rejects a
label list whose length differs from the band count (here `none`). -/
def renameImg (labels : List String) (i : DImg) : Option DImg :=
  if labels.length = i.bands.length
  then some { i with bands := labels.zip (i.bands.map Prod.snd) }
  else none

/-- `collection.reduce(reducer)`: one reduced value per band of the
(first image of the) collection, computed across the stack.  The reduced
band names carry a reducer suffix in the engine; only their count and
per-band values matter here, so the original names are kept. -/
def reduceIC (timeRed : List ℚ → ℚ) (c : List DImg) : List (String × ℚ) :=
  match c with
  | [] => []
  | i :: _ =>
      (bandNames i).map fun n =>
        (n, timeRed (c.map fun j =>
          (((j.bands.find? fun e => e.1 == n).map Prod.snd).getD 0)))

/-- One group produced by `doyByBands`: the temporally reduced (and
relabelled) image together with its day-of-year and group-size
metadata. -/
structure Bucket where
  img : Option DImg
  doy : ℤ
  size : ℕ
  deriving DecidableEq, Repr

/-- Embedding of the grouping/temporal-reduction part of `doyByBands`
(src/geetools/ee_image_collection.py:1233-1272).  Mirrors the source
statement by statement: the band restriction and relabelling computed at
line 1238 is bound and then shadowed, because line 1248 rebuilds `ic`
from `self._obj`; the day-of-year tagging, the 0..366 grouping, the
per-group reduction with `rename(labels)` and the removal of empty groups
follow.  `doyOf` abstracts `ee.Date.getRelative("day", "year")`. -/
def doyByBandsGrouped (obj : List DImg) (bands labels : List String)
    (doyOf : ℤ → ℤ) (timeRed : List ℚ → ℚ) : List Bucket :=
  let bands := if bands.isEmpty then (obj.head?.map bandNames).getD [] else bands
  let labels := if labels.isEmpty then bands else labels
  let _ic0 := obj.map fun i => renameImg labels (selectBands bands i)
  let ic := obj.map fun i => (i, doyOf i.time)
  let icList := (List.range 367).map fun d =>
    (ic.filter fun e => decide (e.2 = (d : ℤ)), (d : ℤ))
  let reducedList := icList.map fun g =>
    { img := renameImg labels ⟨0, reduceIC timeRed (g.1.map Prod.fst)⟩,
      doy := g.2, size := g.1.length : Bucket }
  reducedList.filter fun b => decide (0 < b.size)

end DoyByBands

/-- C7: the collection that `doyByBands` tags with day-of-year metadata
and temporally reduces is the full original collection with all of its
bands under their original names — the restriction to `bands` and the
renaming to `labels` computed at the start are discarded (the method
rebuilds `ic` from `self._obj`), so the result is independent of the
`bands` argument; each kept bucket reduces every original band of the
images sharing its day of year, and the final `rename(labels)` applies
only `len(labels)` names, failing whenever that differs from the full
original band count. -/
theorem doyByBands_discards_selection (obj : List DoyByBands.DImg)
    (bands1 bands2 labels : List String) (doyOf : ℤ → ℤ)
    (timeRed : List ℚ → ℚ) (hl : labels ≠ []) :
    DoyByBands.doyByBandsGrouped obj bands1 labels doyOf timeRed =
      DoyByBands.doyByBandsGrouped obj bands2 labels doyOf timeRed ∧
    (∀ bk ∈ DoyByBands.doyByBandsGrouped obj bands1 labels doyOf timeRed,
      0 < bk.size ∧
      bk.size = (obj.filter fun i => decide (doyOf i.time = bk.doy)).length ∧
      bk.img = DoyByBands.renameImg labels
        ⟨0, DoyByBands.reduceIC timeRed
          (obj.filter fun i => decide (doyOf i.time = bk.doy))⟩) ∧
    (∀ bk ∈ DoyByBands.doyByBandsGrouped obj bands1 labels doyOf timeRed,
      ∀ i0 rest,
        (obj.filter fun i => decide (doyOf i.time = bk.doy)) = i0 :: rest →
        labels.length ≠ i0.bands.length → bk.img = none) := by
  have hlb : labels.isEmpty = false := by
    cases labels with
    | nil => exact absurd rfl hl
    | cons a l => rfl
  have hnorm : ∀ bands, DoyByBands.doyByBandsGrouped obj bands labels doyOf timeRed =
      (((List.range 367).map fun d =>
          ((obj.map fun i => (i, doyOf i.time)).filter fun e =>
            decide (e.2 = (d : ℤ)), (d : ℤ))).map
        fun g => { img := DoyByBands.renameImg labels
                     ⟨0, DoyByBands.reduceIC timeRed (g.1.map Prod.fst)⟩,
                   doy := g.2, size := g.1.length : DoyByBands.Bucket }).filter
        fun b => decide (0 < b.size) := by
    intro bands
    simp only [DoyByBands.doyByBandsGrouped, hlb, Bool.false_eq_true, if_false]
  have hmem : ∀ bk ∈ DoyByBands.doyByBandsGrouped obj bands1 labels doyOf timeRed,
      0 < bk.size ∧
      bk.size = (obj.filter fun i => decide (doyOf i.time = bk.doy)).length ∧
      bk.img = DoyByBands.renameImg labels
        ⟨0, DoyByBands.reduceIC timeRed
          (obj.filter fun i => decide (doyOf i.time = bk.doy))⟩ := by
    intro bk hbk
    rw [hnorm bands1] at hbk
    rcases List.mem_filter.mp hbk with ⟨hmem1, hpos⟩
    rcases List.mem_map.mp hmem1 with ⟨g, hg, rfl⟩
    rcases List.mem_map.mp hg with ⟨d, _, rfl⟩
    have hcomm : ((obj.map fun i => (i, doyOf i.time)).filter fun e =>
        decide (e.2 = (d : ℤ))) =
        (obj.filter fun i => decide (doyOf i.time = (d : ℤ))).map
          fun i => (i, doyOf i.time) := by
      rw [List.filter_map]
      rfl
    refine ⟨by simpa using hpos, ?_, ?_⟩
    · simp only [hcomm, List.length_map]
    · simp only [hcomm, List.map_map]
      have hid : (Prod.fst ∘ fun i : DoyByBands.DImg => (i, doyOf i.time)) = id := rfl
      rw [hid, List.map_id]
  refine ⟨by rw [hnorm bands1, hnorm bands2], hmem, ?_⟩
  intro bk hbk i0 rest hf hne
  rcases hmem bk hbk with ⟨-, -, himg⟩
  have hlen : (DoyByBands.reduceIC timeRed (i0 :: rest)).length = i0.bands.length := by
    simp [DoyByBands.reduceIC, DoyByBands.bandNames]
  rw [himg, hf]
  unfold DoyByBands.renameImg
  rw [if_neg]
  exact fun h => hne (h.trans hlen)

/-- Witness for C7: two two-band images on the same day; selecting band
"B1" or band "B2" yields the same grouped result, whose single bucket
reduced both original bands and therefore failed the one-label rename. -/
theorem doyByBands_discards_selection_witness :
    (["L"] : List String) ≠ [] ∧
    DoyByBands.doyByBandsGrouped
        [⟨0, [("B1", 1), ("B2", 2)]⟩, ⟨0, [("B1", 3), ("B2", 5)]⟩]
        ["B1"] ["L"] (fun t => t) (fun l => l.foldl (· + ·) 0) =
      DoyByBands.doyByBandsGrouped
        [⟨0, [("B1", 1), ("B2", 2)]⟩, ⟨0, [("B1", 3), ("B2", 5)]⟩]
        ["B2"] ["L"] (fun t => t) (fun l => l.foldl (· + ·) 0) ∧
    DoyByBands.doyByBandsGrouped
        [⟨0, [("B1", 1), ("B2", 2)]⟩, ⟨0, [("B1", 3), ("B2", 5)]⟩]
        ["B1"] ["L"] (fun t => t) (fun l => l.foldl (· + ·) 0) =
      [⟨none, 0, 2⟩] := by
  have h := doyByBands_discards_selection
    [⟨0, [("B1", 1), ("B2", 2)]⟩, ⟨0, [("B1", 3), ("B2", 5)]⟩]
    ["B1"] ["B2"] ["L"] (fun t => t) (fun l => l.foldl (· + ·) 0)
    (by simp)
  exact ⟨by simp, h.1, by decide⟩

namespace Outliers

/-- A per-pixel image for `outliers`: named band values at a fixed
pixel. -/
abbrev Img := List (String × ℝ)

/-- `image.select([n])` at one band: the band's value (bands are unique
by convention). -/
def lookupBand (i : Img) (n : String) : ℝ :=
  (((i.find? fun e => e.1 == n).map Prod.snd).getD 0)

/-- The per-pixel stack of values of band `n` across the collection. -/
def bandValues (obj : List Img) (n : String) : List ℝ :=
  obj.map (lookupBand · n)

/-- `statCollection.mean()`: the pixel-wise arithmetic mean across the
stack (modelled from the Earth Engine API). -/
noncomputable def meanOf (vs : List ℝ) : ℝ := vs.sum / vs.length

/-- `statCollection.reduce(ee.Reducer.stdDev())`: the pixel-wise
population standard deviation across the stack (modelled from the Earth
Engine API; `ee.Reducer.sampleStdDev` is the sample variant). -/
noncomputable def stdOf (vs : List ℝ) : ℝ :=
  Real.sqrt (((vs.map fun v => (v - meanOf vs) ^ 2).sum) / vs.length)

/-- One outlier band value
(src/geetools/ee_image_collection.py:610-616):
`outImage.gt(mean + stdDev*sigma).Or(outImage.lt(mean - stdDev*sigma))`,
encoded as 1/0. -/
noncomputable def outlierFlag (obj : List Img) (sigma : ℝ) (n : String)
    (v : ℝ) : ℝ :=
  if v > meanOf (bandValues obj n) + stdOf (bandValues obj n) * sigma ∨
      v < meanOf (bandValues obj n) - stdOf (bandValues obj n) * sigma
  then 1 else 0

/-- Embedding of `outliers` with `drop=False`
(src/geetools/ee_image_collection.py:553-628): for each image, append
one `<band>_outlier` boolean band per evaluated band; an empty `bands`
argument evaluates every band of the first image. -/
noncomputable def outliers (obj : List Img) (bands : List String)
    (sigma : ℝ) : List Img :=
  let initBands := (obj.head?.map fun i => i.map Prod.fst).getD []
  let statBands := if bands.isEmpty then initBands else bands
  obj.map fun i =>
    i ++ statBands.map fun n =>
      (n ++ "_outlier", outlierFlag obj sigma n (lookupBand i n))

/-- The specification's synthetic example: the per-pixel value sequence
1, 5, 6, 4, 7, 10 on band B1. -/
def sixImgs : List Img :=
  [[("B1", 1)], [("B1", 5)], [("B1", 6)], [("B1", 4)], [("B1", 7)], [("B1", 10)]]

end Outliers

/-- Evaluation of the B1 stack of the six-image example. -/
theorem sixImgs_bandValues :
    Outliers.bandValues Outliers.sixImgs "B1" = [1, 5, 6, 4, 7, 10] := by
  simp [Outliers.bandValues, Outliers.lookupBand, Outliers.sixImgs, List.find?]

/-- Mean of the six-value example. -/
theorem sixImgs_mean : Outliers.meanOf [1, 5, 6, 4, 7, 10] = 11 / 2 := by
  simp [Outliers.meanOf]
  norm_num

/-- Population standard deviation of the six-value example. -/
theorem sixImgs_std :
    Outliers.stdOf [1, 5, 6, 4, 7, 10] = Real.sqrt (91 / 12) := by
  unfold Outliers.stdOf
  simp only [sixImgs_mean]
  congr 1
  norm_num

/-- Lower bound on the example's standard deviation. -/
theorem sixImgs_std_lb : (9 / 4 : ℝ) ≤ Real.sqrt (91 / 12) := by
  rw [Real.le_sqrt' (by norm_num)]
  norm_num

/-- Upper bound on the example's standard deviation. -/
theorem sixImgs_std_ub : Real.sqrt (91 / 12) ≤ 3 := by
  rw [Real.sqrt_le_iff]
  norm_num

/-- The outlier flag of the six-image example, as a comparison against
the concrete mean 11/2 and population standard deviation √(91/12). -/
theorem sixImgs_flag (sigma v : ℝ) :
    Outliers.outlierFlag Outliers.sixImgs sigma "B1" v =
      if v > 11 / 2 + Real.sqrt (91 / 12) * sigma ∨
          v < 11 / 2 - Real.sqrt (91 / 12) * sigma then 1 else 0 := by
  unfold Outliers.outlierFlag
  rw [sixImgs_bandValues, sixImgs_mean, sixImgs_std]

/-- C3 (amended): `outliers(bands, sigma)` appends one boolean band per
selected band that is 1 at a pixel exactly when
`value > mean + sigma*stddev` or `value < mean - sigma*stddev`, with the
mean and the *population* standard deviation computed pixel-wise across
the whole collection; on the per-pixel sequence [1,5,6,4,7,10] this flags
exactly the values 1 and 10 **with sigma = 1** (the claim's sigma = 2
bounds contain all six values — see the counterexample). -/
theorem outliers_flag_rule (obj : List Outliers.Img) (bands : List String)
    (sigma : ℝ) (hb : bands ≠ []) :
    (Outliers.outliers obj bands sigma = obj.map fun i =>
      i ++ bands.map fun n =>
        (n ++ "_outlier",
          Outliers.outlierFlag obj sigma n (Outliers.lookupBand i n))) ∧
    (∀ n v, Outliers.outlierFlag obj sigma n v = 1 ↔
        v > Outliers.meanOf (Outliers.bandValues obj n) +
            Outliers.stdOf (Outliers.bandValues obj n) * sigma ∨
        v < Outliers.meanOf (Outliers.bandValues obj n) -
            Outliers.stdOf (Outliers.bandValues obj n) * sigma) ∧
    Outliers.outliers Outliers.sixImgs ["B1"] 1 =
      [[("B1", 1), ("B1_outlier", 1)],
       [("B1", 5), ("B1_outlier", 0)],
       [("B1", 6), ("B1_outlier", 0)],
       [("B1", 4), ("B1_outlier", 0)],
       [("B1", 7), ("B1_outlier", 0)],
       [("B1", 10), ("B1_outlier", 1)]] := by
  have hbe : bands.isEmpty = false := by
    cases bands with
    | nil => exact absurd rfl hb
    | cons a l => rfl
  have hlb := sixImgs_std_lb
  have hub := sixImgs_std_ub
  have hnn := Real.sqrt_nonneg (91 / 12 : ℝ)
  refine ⟨?_, ?_, ?_⟩
  · simp only [Outliers.outliers, hbe, Bool.false_eq_true, if_false]
  · intro n v
    unfold Outliers.outlierFlag
    split_ifs with h
    · simp [h]
    · simp [h]
  · have e1 : Outliers.outlierFlag Outliers.sixImgs 1 "B1" 1 = 1 := by
      rw [sixImgs_flag, if_pos (Or.inr (by linarith))]
    have e5 : Outliers.outlierFlag Outliers.sixImgs 1 "B1" 5 = 0 := by
      rw [sixImgs_flag,
        if_neg (by push_neg; exact ⟨by linarith, by linarith⟩)]
    have e6 : Outliers.outlierFlag Outliers.sixImgs 1 "B1" 6 = 0 := by
      rw [sixImgs_flag,
        if_neg (by push_neg; exact ⟨by linarith, by linarith⟩)]
    have e4 : Outliers.outlierFlag Outliers.sixImgs 1 "B1" 4 = 0 := by
      rw [sixImgs_flag,
        if_neg (by push_neg; exact ⟨by linarith, by linarith⟩)]
    have e7 : Outliers.outlierFlag Outliers.sixImgs 1 "B1" 7 = 0 := by
      rw [sixImgs_flag,
        if_neg (by push_neg; exact ⟨by linarith, by linarith⟩)]
    have e10 : Outliers.outlierFlag Outliers.sixImgs 1 "B1" 10 = 1 := by
      rw [sixImgs_flag, if_pos (Or.inl (by linarith))]
    simp [Outliers.outliers, Outliers.sixImgs, Outliers.lookupBand,
      List.find?, e1, e5, e6, e4, e7, e10]
    exact ⟨e1, e5, e6, e4, e7, e10⟩

/-- C3 counterexample: with sigma = 2 on the sequence [1,5,6,4,7,10] the
bounds mean ± 2·stddev (≈ [-0.01, 11.01] for the population standard
deviation √(91/12) ≈ 2.754) contain every value, so *no* pixel is
flagged — in particular the values 1 and 10 are not flagged, contrary to
the claim. -/
theorem outliers_sigma2_cex :
    Outliers.outliers Outliers.sixImgs ["B1"] 2 =
      [[("B1", 1), ("B1_outlier", 0)],
       [("B1", 5), ("B1_outlier", 0)],
       [("B1", 6), ("B1_outlier", 0)],
       [("B1", 4), ("B1_outlier", 0)],
       [("B1", 7), ("B1_outlier", 0)],
       [("B1", 10), ("B1_outlier", 0)]] := by
  have hlb := sixImgs_std_lb
  have hub := sixImgs_std_ub
  have hnn := Real.sqrt_nonneg (91 / 12 : ℝ)
  have f1 : Outliers.outlierFlag Outliers.sixImgs 2 "B1" 1 = 0 := by
    rw [sixImgs_flag, if_neg (by push_neg; exact ⟨by linarith, by linarith⟩)]
  have f5 : Outliers.outlierFlag Outliers.sixImgs 2 "B1" 5 = 0 := by
    rw [sixImgs_flag, if_neg (by push_neg; exact ⟨by linarith, by linarith⟩)]
  have f6 : Outliers.outlierFlag Outliers.sixImgs 2 "B1" 6 = 0 := by
    rw [sixImgs_flag, if_neg (by push_neg; exact ⟨by linarith, by linarith⟩)]
  have f4 : Outliers.outlierFlag Outliers.sixImgs 2 "B1" 4 = 0 := by
    rw [sixImgs_flag, if_neg (by push_neg; exact ⟨by linarith, by linarith⟩)]
  have f7 : Outliers.outlierFlag Outliers.sixImgs 2 "B1" 7 = 0 := by
    rw [sixImgs_flag, if_neg (by push_neg; exact ⟨by linarith, by linarith⟩)]
  have f10 : Outliers.outlierFlag Outliers.sixImgs 2 "B1" 10 = 0 := by
    rw [sixImgs_flag, if_neg (by push_neg; exact ⟨by linarith, by linarith⟩)]
  simp [Outliers.outliers, Outliers.sixImgs, Outliers.lookupBand,
    List.find?, f1, f5, f6, f4, f7, f10]
  exact ⟨f1, f5, f6, f4, f7, f10⟩

/-- Witness for C3: the shape conjunct of the rule instantiated on the
six-image example at sigma = 1. -/
theorem outliers_flag_rule_witness :
    (["B1"] : List String) ≠ [] ∧
    Outliers.outliers Outliers.sixImgs ["B1"] 1 =
      Outliers.sixImgs.map (fun i => i ++ (["B1"].map fun n =>
        (n ++ "_outlier",
          Outliers.outlierFlag Outliers.sixImgs 1 n
            (Outliers.lookupBand i n)))) := by
  have h := outliers_flag_rule Outliers.sixImgs ["B1"] 1 (by simp)
  exact ⟨by simp, h.1⟩

namespace Medoid

/-- An image for `medoid`: its band values at a fixed pixel, in band
order (the method renames every intermediate back to the first image's
`bandNames`, so positions identify bands). -/
abbrev Img := List ℝ

/-- `ee.Reducer.minMax()` per band: the pixel-wise minimum over the
stack. -/
noncomputable def colMin (obj : List Img) (j : ℕ) : ℝ :=
  ((obj.map fun i => i.getD j 0).min?).getD 0

/-- `ee.Reducer.minMax()` per band: the pixel-wise maximum over the
stack. -/
noncomputable def colMax (obj : List Img) (j : ℕ) : ℝ :=
  ((obj.map fun i => i.getD j 0).max?).getD 0

/-- `normalizeBands` (src/geetools/ee_image_collection.py:1033-1042):
per band `(band - min) / (max - min)`, one band per name of the first
image. -/
noncomputable def normalized (obj : List Img) : List Img :=
  obj.map fun i => (List.range (obj.head?.getD []).length).map
    fun j => (i.getD j 0 - colMin obj j) / (colMax obj j - colMin obj j)

/-- `computeDistance` (src/geetools/ee_image_collection.py:1046-1047):
`image.subtract(other).pow(2).reduce(ee.Reducer.sum()).sqrt()`. -/
noncomputable def distImg (a b : Img) : ℝ :=
  Real.sqrt (((a.zip b).map fun p => (p.1 - p.2) ^ 2).sum)

/-- `computeSumDistance` (src/geetools/ee_image_collection.py:1045-1050):
the sum of distances from `a` to every image of the normalized
collection. -/
noncomputable def sumDist (norm : List Img) (a : Img) : ℝ :=
  (norm.map fun o => distImg a o).sum

/-- Modelled from the Earth Engine API: `qualityMosaic(q)` composes the
collection keeping, per pixel, the bands of the image whose quality band
`q` is *highest* (the earliest image wins ties here; the engine leaves
ties unspecified and the theorems below avoid them). -/
noncomputable def qualityMosaic (c : List (Img × ℝ)) : Img :=
  ((c.foldl (fun best x =>
      match best with
      | none => some x
      | some b => if x.2 > b.2 then some x else some b) none).map
    Prod.fst).getD []

/-- Embedding of `medoid` (src/geetools/ee_image_collection.py:997-1058):
normalize, attach the sum-of-distances band to each image, and quality
mosaic directly on that band (the sum is *not* negated or inverted);
the final `select(bandNames)` keeps the mosaic's (normalized) bands and
drops the distance band. -/
noncomputable def medoid (obj : List Img) : Img :=
  let norm := normalized obj
  let sd := norm.map fun i => (i, sumDist norm i)
  qualityMosaic sd

end Medoid

/-- Single-band Euclidean distance is the absolute difference. -/
theorem distImg_single (x y : ℝ) : Medoid.distImg [x] [y] = |x - y| := by
  simp [Medoid.distImg]
  exact Real.sqrt_sq_eq_abs _

/-- Per-band minimum of the three-image example. -/
theorem medoid_colMin :
    Medoid.colMin [[0], [2 / 5], [1]] 0 = 0 := by
  simp [Medoid.colMin, List.min?]
  norm_num [min_def]

/-- Per-band maximum of the three-image example. -/
theorem medoid_colMax :
    Medoid.colMax [[0], [2 / 5], [1]] 0 = 1 := by
  simp [Medoid.colMax, List.max?]
  norm_num [max_def]

/-- The example collection is already normalized. -/
theorem medoid_normalized :
    Medoid.normalized [[0], [2 / 5], [1]] = [[0], [2 / 5], [1]] := by
  simp [Medoid.normalized, List.range_succ, medoid_colMin, medoid_colMax]

/-- Sums of distances in the example: 7/5 for the image 0. -/
theorem medoid_sum0 : Medoid.sumDist [[0], [2 / 5], [1]] [0] = 7 / 5 := by
  norm_num [Medoid.sumDist, distImg_single, abs_of_nonneg, abs_of_nonpos]

/-- Sums of distances in the example: 1 for the image 2/5 (the medoid). -/
theorem medoid_sum04 : Medoid.sumDist [[0], [2 / 5], [1]] [2 / 5] = 1 := by
  norm_num [Medoid.sumDist, distImg_single, abs_of_nonneg, abs_of_nonpos]

/-- Sums of distances in the example: 8/5 for the image 1. -/
theorem medoid_sum1 : Medoid.sumDist [[0], [2 / 5], [1]] [1] = 8 / 5 := by
  norm_num [Medoid.sumDist, distImg_single, abs_of_nonneg, abs_of_nonpos]

/-- C1 evaluation: on the single-pixel one-band collection with values
0, 2/5 and 1, `medoid()` returns the image with value 1 — the image whose
sum of per-pixel distances to the others (8/5) is strictly *larger* than
the true medoid's (the value 2/5, sum 1) — because `qualityMosaic` is
keyed on the raw sum-of-distances band, which is never negated or
inverted. -/
theorem medoid_picks_max :
    Medoid.medoid [[0], [2 / 5], [1]] = [1] ∧
    Medoid.sumDist (Medoid.normalized [[0], [2 / 5], [1]]) [2 / 5] <
      Medoid.sumDist (Medoid.normalized [[0], [2 / 5], [1]]) [1] ∧
    Medoid.sumDist (Medoid.normalized [[0], [2 / 5], [1]]) [2 / 5] <
      Medoid.sumDist (Medoid.normalized [[0], [2 / 5], [1]]) [0] := by
  refine ⟨?_, ?_, ?_⟩
  · simp only [Medoid.medoid]
    rw [medoid_normalized]
    norm_num [Medoid.qualityMosaic, medoid_sum0, medoid_sum04, medoid_sum1]
  · rw [medoid_normalized, medoid_sum04, medoid_sum1]
    norm_num
  · rw [medoid_normalized, medoid_sum04, medoid_sum0]
    norm_num
